import Mathlib

/-!
Verification of the process-and-memory core of the rCore-style teaching kernel
(frame allocator, page table, task control block, stride scheduler), as a
shallow embedding of os/src/mm/frame_allocator.rs, os/src/mm/page_table.rs,
os/src/task/task.rs and os/src/task/manager.rs.
-/

/-! ## Frame allocator (os/src/mm/frame_allocator.rs) -/

/-- Shallow embedding of StackFrameAllocator: a half-open never-allocated range
[current, endPpn) plus a stack of recycled page numbers.  The Rust Vec pushes
and pops at its back; here the head of the list is the top of the stack, so the
list order is the reverse of the Vec order. -/
structure StackFrameAllocator where
  current : Nat
  endPpn : Nat
  recycled : List Nat
deriving DecidableEq

/-- StackFrameAllocator::alloc: pop the recycled stack first; otherwise take
current and advance it, returning None exactly when current == end and the
stack is empty. -/
def StackFrameAllocator.alloc (s : StackFrameAllocator) : Option Nat × StackFrameAllocator :=
  match s.recycled with
  | ppn :: rest => (some ppn, { s with recycled := rest })
  | [] =>
    if s.current = s.endPpn then
      (none, s)
    else
      (some s.current, { s with current := s.current + 1 })

/-- StackFrameAllocator::dealloc: panic (modelled as none) when ppn >= current
or ppn is already on the recycled stack; otherwise push ppn. -/
def StackFrameAllocator.dealloc (s : StackFrameAllocator) (ppn : Nat) : Option StackFrameAllocator :=
  if s.current ≤ ppn ∨ ppn ∈ s.recycled then
    none
  else
    some { s with recycled := ppn :: s.recycled }

/-- StackFrameAllocator::new followed by init(l, r). -/
def StackFrameAllocator.init (l r : Nat) : StackFrameAllocator :=
  { current := l, endPpn := r, recycled := [] }

/-- Membership in the free set of the allocator: the recycled stack plus the
never-yet-allocated range [current, endPpn). -/
def StackFrameAllocator.freeFrame (s : StackFrameAllocator) (p : Nat) : Prop :=
  p ∈ s.recycled ∨ (s.current ≤ p ∧ p < s.endPpn)

instance (s : StackFrameAllocator) (p : Nat) : Decidable (s.freeFrame p) := by
  unfold StackFrameAllocator.freeFrame; infer_instance

/-- C8: alloc returns the most recently released page (the top of the recycled
stack) when the stack is non-empty; with an empty stack and current < end it
returns current and advances current by one; it returns no frame exactly when
current == end and the stack is empty.  The last conjunct ties the stack top to
release order: a page just released is the next one allocated. -/
theorem alloc_spec (p₀ : Nat) (s : StackFrameAllocator) :
    (∀ p rest, s.recycled = p :: rest →
      s.alloc = (some p, { s with recycled := rest })) ∧
    (s.recycled = [] → s.current < s.endPpn →
      s.alloc = (some s.current, { s with current := s.current + 1 })) ∧
    (s.alloc.1 = none ↔ s.current = s.endPpn ∧ s.recycled = []) ∧
    (∀ s', s.dealloc p₀ = some s' → s'.alloc.1 = some p₀) := by
  obtain ⟨c, e, rec⟩ := s
  refine ⟨?_, ?_, ?_, ?_⟩
  · intro p rest hrec
    cases hrec
    simp [StackFrameAllocator.alloc]
  · intro hrec hlt
    cases hrec
    simp [StackFrameAllocator.alloc, Nat.ne_of_lt hlt]
  · cases rec with
    | nil => by_cases he : c = e <;> simp [StackFrameAllocator.alloc, he]
    | cons p rest => simp [StackFrameAllocator.alloc]
  · intro s' hd
    by_cases hc : c ≤ p₀ ∨ p₀ ∈ rec
    · simp [StackFrameAllocator.dealloc, hc] at hd
    · simp [StackFrameAllocator.dealloc, hc] at hd
      cases hd
      simp [StackFrameAllocator.alloc]

/-- Witness for C8 at concrete allocator states. -/
theorem alloc_spec_witness :
    (StackFrameAllocator.mk 1 3 [7, 5]).alloc = (some 7, StackFrameAllocator.mk 1 3 [5]) ∧
    (StackFrameAllocator.mk 1 3 []).alloc = (some 1, StackFrameAllocator.mk 2 3 []) ∧
    (StackFrameAllocator.mk 3 3 []).alloc.1 = none ∧
    (StackFrameAllocator.mk 2 9 []).dealloc 1 = some (StackFrameAllocator.mk 2 9 [1]) ∧
    (StackFrameAllocator.mk 2 9 [1]).alloc.1 = some 1 := by
  refine ⟨(alloc_spec 0 _).1 7 [5] rfl, (alloc_spec 0 _).2.1 rfl (by decide),
    ((alloc_spec 0 _).2.2.1).mpr ⟨rfl, rfl⟩, by decide,
    (alloc_spec 1 (StackFrameAllocator.mk 2 9 [])).2.2.2
      (StackFrameAllocator.mk 2 9 [1]) (by decide)⟩

/-- C9: dealloc faults (returns none, modelling the kernel panic) exactly when
the page is still in the unallocated region (ppn >= current) or already on the
recycled stack; otherwise it pushes the page onto the recycled stack. -/
theorem dealloc_spec (s : StackFrameAllocator) (ppn : Nat) :
    (s.dealloc ppn = none ↔ s.current ≤ ppn ∨ ppn ∈ s.recycled) ∧
    (¬(s.current ≤ ppn ∨ ppn ∈ s.recycled) →
      s.dealloc ppn = some { s with recycled := ppn :: s.recycled }) := by
  constructor
  · unfold StackFrameAllocator.dealloc
    by_cases hc : s.current ≤ ppn ∨ ppn ∈ s.recycled <;> simp [hc]
  · intro hc
    simp [StackFrameAllocator.dealloc, hc]

/-- Witness for C9 at a concrete allocator state. -/
theorem dealloc_spec_witness :
    (StackFrameAllocator.mk 2 5 [0]).dealloc 1 = some (StackFrameAllocator.mk 2 5 [1, 0]) ∧
    (StackFrameAllocator.mk 2 5 [0]).dealloc 3 = none ∧
    (StackFrameAllocator.mk 2 5 [0]).dealloc 0 = none := by
  refine ⟨(dealloc_spec _ 1).2 (by decide), (dealloc_spec _ 3).1.mpr (by decide),
    (dealloc_spec _ 0).1.mpr (by decide)⟩

/-! ## Allocate/release traces and the no-double-use invariant (C1) -/

/-- One operation on the global frame allocator: frame_alloc, or the release
performed by FrameTracker::drop via frame_dealloc. -/
inductive FrameOp where
  | alloc : FrameOp
  | release : Nat → FrameOp
deriving DecidableEq

/-- One step of a trace.  The state carries the allocator together with the
list of live page numbers (pages owned by outstanding FrameTracker handles).
frame_alloc returning None hands out no handle; release is applied only to a
currently live page (the claim restricts traces to such releases), and a
failing dealloc (kernel panic) aborts the trace. -/
def frameStep (st : StackFrameAllocator × List Nat) (op : FrameOp) :
    Option (StackFrameAllocator × List Nat) :=
  match op with
  | .alloc =>
    match st.1.alloc with
    | (some p, s') => some (s', p :: st.2)
    | (none, s') => some (s', st.2)
  | .release p =>
    if p ∈ st.2 then
      (st.1.dealloc p).map (fun s' => (s', st.2.erase p))
    else
      none

/-- Run a whole trace of allocator operations. -/
def frameRun (ops : List FrameOp) (st : StackFrameAllocator × List Nat) :
    Option (StackFrameAllocator × List Nat) :=
  match ops with
  | [] => some st
  | op :: rest =>
    match frameStep st op with
    | some st' => frameRun rest st'
    | none => none

/-- Invariant tying the live handles to the allocator state: live pages are
pairwise distinct, below current, and disjoint from the recycled stack, which
itself is duplicate-free and below current. -/
def FrameInv (st : StackFrameAllocator × List Nat) : Prop :=
  st.2.Nodup ∧ st.1.recycled.Nodup ∧
  (∀ p ∈ st.2, p < st.1.current) ∧
  (∀ p ∈ st.1.recycled, p < st.1.current) ∧
  (∀ p ∈ st.2, p ∉ st.1.recycled)

theorem frameStep_inv {st st' : StackFrameAllocator × List Nat} {op : FrameOp}
    (h : FrameInv st) (hs : frameStep st op = some st') : FrameInv st' := by
  obtain ⟨⟨c, e, rec⟩, live⟩ := st
  obtain ⟨hnd, hrecnd, hlt, hreclt, hdisj⟩ := h
  cases op with
  | alloc =>
    cases rec with
    | cons p rest =>
      simp [frameStep, StackFrameAllocator.alloc] at hs
      cases hs
      refine ⟨?_, (List.nodup_cons.mp hrecnd).2, ?_, ?_, ?_⟩
      · exact List.nodup_cons.mpr ⟨fun hmem => hdisj p hmem (List.mem_cons_self p rest), hnd⟩
      · intro q hq
        rcases List.mem_cons.mp hq with rfl | hq
        · exact hreclt q (List.mem_cons_self q rest)
        · exact hlt q hq
      · intro q hq
        exact hreclt q (List.mem_cons_of_mem p hq)
      · intro q hq
        rcases List.mem_cons.mp hq with rfl | hq
        · exact (List.nodup_cons.mp hrecnd).1
        · exact fun hmem => hdisj q hq (List.mem_cons_of_mem p hmem)
    | nil =>
      by_cases he : c = e
      · subst he
        simp [frameStep, StackFrameAllocator.alloc] at hs
        cases hs
        exact ⟨hnd, hrecnd, hlt, hreclt, hdisj⟩
      · simp [frameStep, StackFrameAllocator.alloc, he] at hs
        cases hs
        refine ⟨?_, hrecnd, ?_, ?_, ?_⟩
        · exact List.nodup_cons.mpr ⟨fun hmem => Nat.lt_irrefl c (hlt c hmem), hnd⟩
        · intro q hq
          rcases List.mem_cons.mp hq with rfl | hq
          · exact Nat.lt_succ_self q
          · exact Nat.lt_succ_of_lt (hlt q hq)
        · intro q hq
          exact absurd hq (List.not_mem_nil q)
        · intro q hq
          exact fun hmem => absurd hmem (List.not_mem_nil q)
  | release p =>
    by_cases hlive : p ∈ live
    · by_cases hc : c ≤ p ∨ p ∈ rec
      · simp [frameStep, StackFrameAllocator.dealloc, hlive, hc] at hs
      · simp [frameStep, StackFrameAllocator.dealloc, hlive, hc] at hs
        cases hs
        push_neg at hc
        refine ⟨hnd.erase p, ?_, ?_, ?_, ?_⟩
        · exact List.nodup_cons.mpr ⟨hc.2, hrecnd⟩
        · intro q hq
          exact hlt q (List.mem_of_mem_erase hq)
        · intro q hq
          rcases List.mem_cons.mp hq with rfl | hq
          · exact hc.1
          · exact hreclt q hq
        · intro q hq
          have hq' := (List.Nodup.mem_erase_iff hnd).mp hq
          intro hmem
          rcases List.mem_cons.mp hmem with rfl | hmem
          · exact hq'.1 rfl
          · exact hdisj q hq'.2 hmem
    · simp [frameStep, hlive] at hs

theorem frameRun_inv {ops : List FrameOp} {st st' : StackFrameAllocator × List Nat}
    (h : FrameInv st) (hs : frameRun ops st = some st') : FrameInv st' := by
  induction ops generalizing st with
  | nil =>
    simp [frameRun] at hs
    cases hs
    exact h
  | cons op rest ih =>
    rw [frameRun] at hs
    cases hstep : frameStep st op with
    | none => rw [hstep] at hs; cases hs
    | some st₁ =>
      rw [hstep] at hs
      exact ih (frameStep_inv h hstep) hs

/-- C1: along every allocate/release trace starting from the freshly
initialised allocator, in which a release only ever targets a live page, the
live pages are pairwise distinct (no two live FrameTracker handles carry the
same physical page number) and no live page is also in the free set (recycled
stack plus the never-allocated range). -/
theorem frame_allocator_no_double_use
    (l r : Nat) (ops : List FrameOp) (st : StackFrameAllocator × List Nat)
    (hrun : frameRun ops (StackFrameAllocator.init l r, []) = some st) :
    st.2.Nodup ∧ ∀ p ∈ st.2, ¬ st.1.freeFrame p := by
  have hinv : FrameInv (StackFrameAllocator.init l r, []) := by
    refine ⟨List.nodup_nil, List.nodup_nil, ?_, ?_, ?_⟩ <;> simp [StackFrameAllocator.init]
  have h := frameRun_inv hinv hrun
  obtain ⟨hnd, _, hlt, _, hdisj⟩ := h
  refine ⟨hnd, fun p hp hfree => ?_⟩
  rcases hfree with hfree | ⟨hge, _⟩
  · exact hdisj p hp hfree
  · exact Nat.not_le.mpr (hlt p hp) hge

/-- Witness for C1: a concrete trace with reuse through the recycled stack. -/
theorem frame_allocator_no_double_use_witness :
    ([0, 1] : List Nat).Nodup ∧
    ∀ p ∈ ([0, 1] : List Nat), ¬ (StackFrameAllocator.mk 2 3 []).freeFrame p :=
  frame_allocator_no_double_use 0 3
    [FrameOp.alloc, FrameOp.alloc, FrameOp.release 0, FrameOp.alloc]
    (StackFrameAllocator.mk 2 3 [], [0, 1]) (by decide)

/-! ## Task control block (os/src/task/task.rs)

The embedding keeps the scalar fields of TaskControlBlockInner that the claims
are about (status, priority, stride, base_size, heap_bottom, program_brk,
exit_code); the memory set, trap/task contexts, parent weak reference, children
vector and syscall accounting are outside the scope of these claims. -/

/-- TaskStatus from os/src/task/task.rs. -/
inductive TaskStatus where
  | UnInit : TaskStatus
  | Ready : TaskStatus
  | Running : TaskStatus
  | Zombie : TaskStatus
deriving DecidableEq

/-- Scalar fields of TaskControlBlockInner.  priority is an isize in the
source, stride a usize. -/
structure TaskControlBlockInner where
  taskStatus : TaskStatus
  priority : Int
  stride : Nat
  baseSize : Nat
  heapBottom : Nat
  programBrk : Nat
  exitCode : Int
deriving DecidableEq

/-- Inner state built by TaskControlBlock::new: status Ready, priority 16,
stride 0, heap bottom and program break at the user stack top. -/
def TaskControlBlockInner.newFromElf (userSp : Nat) : TaskControlBlockInner :=
  { taskStatus := TaskStatus.Ready, priority := 16, stride := 0, baseSize := userSp,
    heapBottom := userSp, programBrk := userSp, exitCode := 0 }

/-- Inner state of the child built by TaskControlBlock::fork (task.rs lines
198-213): status Ready, priority 16, stride 0, base size, heap bottom and
program break copied from the parent, exit code 0. -/
def TaskControlBlockInner.forkChild (parent : TaskControlBlockInner) : TaskControlBlockInner :=
  { taskStatus := TaskStatus.Ready, priority := 16, stride := 0, baseSize := parent.baseSize,
    heapBottom := parent.heapBottom, programBrk := parent.programBrk, exitCode := 0 }

/-- TaskControlBlock::set_priority: the source asserts prio > 1 and panics
otherwise (modelled as none); on success it stores the priority. -/
def TaskControlBlockInner.setPriority (inner : TaskControlBlockInner) (prio : Int) :
    Option TaskControlBlockInner :=
  if 1 < prio then some { inner with priority := prio } else none

/-- Counterexample for C2: passing priority 1 to set_priority does not produce
a sentinel return value; it trips the assertion and panics the kernel
(modelled by none). -/
theorem set_priority_one_panics_cex :
    (TaskControlBlockInner.newFromElf 4096).setPriority 1 = none := by decide

/-- C2 (amended): for every priority p <= 1, set_priority fails the assertion
prio > 1 and panics the kernel; the failure is fatal, not reported to the
caller as a negative/sentinel result. -/
theorem set_priority_le_one_panics (t : TaskControlBlockInner) (p : Int) (hp : p ≤ 1) :
    t.setPriority p = none := by
  simp [TaskControlBlockInner.setPriority, Int.not_lt.mpr hp]

/-- Witness for C2 at a concrete task and priority. -/
theorem set_priority_le_one_panics_witness :
    ((-1 : Int) ≤ 1) ∧ (TaskControlBlockInner.newFromElf 0).setPriority (-1) = none :=
  ⟨by decide, set_priority_le_one_panics _ _ (by decide)⟩

/-- Counterexample for C3: a parent whose priority was validly set to 30 forks
a child whose priority field is 16, not the parent value 30 (fork hardcodes
priority 16; it does not inherit). -/
theorem fork_priority_not_inherited_cex :
    (TaskControlBlockInner.newFromElf 4096).setPriority 30 =
      some { TaskControlBlockInner.newFromElf 4096 with priority := 30 } ∧
    TaskControlBlockInner.forkChild
      { TaskControlBlockInner.newFromElf 4096 with priority := 30 } ≠
      { TaskControlBlockInner.forkChild
          { TaskControlBlockInner.newFromElf 4096 with priority := 30 } with priority := 30 } ∧
    (TaskControlBlockInner.forkChild
      { TaskControlBlockInner.newFromElf 4096 with priority := 30 }).priority = 16 := by decide

/-- C3 (amended): fork builds the child with the default priority 16 regardless
of the parent priority, and with stride 0. -/
theorem fork_child_priority_default (parent : TaskControlBlockInner) :
    parent.forkChild.priority = 16 ∧ parent.forkChild.stride = 0 :=
  ⟨rfl, rfl⟩

/-! ## Stride scheduler (os/src/task/manager.rs) -/

/-- BIG_STRIDE from manager.rs. -/
def BIG_STRIDE : Nat := 0x10000000

/-- The `as usize` cast applied to the isize priority in
fetch_min_stride_task. -/
def usizeOfIsize (p : Int) : Nat := (p % (2 ^ 64 : Int)).toNat

/-- An Arc<TaskControlBlock> in the ready queue: the id stands for the Arc
pointer identity used by Arc::ptr_eq. -/
structure TaskRef where
  id : Nat
  inner : TaskControlBlockInner
deriving DecidableEq

/-- TaskManager::fetch: plain FIFO pop_front. -/
def fetchTask (q : List TaskRef) : Option (TaskRef × List TaskRef) :=
  match q with
  | [] => none
  | t :: ts => some (t, ts)

/-- The scan loop of fetch_min_stride_task: starting from the head of the
queue, replace the candidate whenever a strictly smaller stride is seen, so
the first task attaining the minimum wins ties. -/
def selMinStride (a : TaskRef) : List TaskRef → TaskRef
  | [] => a
  | t :: ts => if t.inner.stride < a.inner.stride then selMinStride t ts else selMinStride a ts

/-- The position + remove step of fetch_min_stride_task: drop the first queue
entry whose Arc pointer (id) matches; leave the queue unchanged if none does. -/
def removeFirstId : List TaskRef → Nat → List TaskRef
  | [], _ => []
  | t :: ts, i => if t.id = i then ts else t :: removeFirstId ts i

/-- TaskManager::fetch_min_stride_task.  On an empty queue the source indexes
ready_queue[0] and panics (error).  Otherwise it selects the first
minimum-stride task, removes it from the queue, and advances its stride by
BIG_STRIDE / priority (an error marks the division-by-zero panic; the usize
addition wraps at 2^64). -/
def fetchMinStrideTask (q : List TaskRef) : Except Unit (TaskRef × List TaskRef) :=
  match q with
  | [] => Except.error ()
  | t :: ts =>
    let m := selMinStride t ts
    let rest := removeFirstId q m.id
    let d := usizeOfIsize m.inner.priority
    if d = 0 then Except.error ()
    else
      Except.ok
        ({ m with inner := { m.inner with
            stride := (m.inner.stride + BIG_STRIDE / d) % 2 ^ 64 } }, rest)

/-- C10: on an empty ready queue, fetch_min_stride_task panics (it indexes the
first element before scanning), while the plain FIFO fetch returns None. -/
theorem fetch_empty_behavior :
    fetchMinStrideTask [] = Except.error () ∧ fetchTask [] = none :=
  ⟨rfl, rfl⟩

/-- The scan selects the first task attaining the minimal stride: the queue
splits around the selected task, every earlier task has a strictly larger
stride and every later task one at least as large. -/
theorem selMinStride_split (l : List TaskRef) (a : TaskRef) :
    ∃ l₁ l₂, a :: l = l₁ ++ selMinStride a l :: l₂ ∧
      (∀ u ∈ l₁, (selMinStride a l).inner.stride < u.inner.stride) ∧
      (∀ u ∈ l₂, (selMinStride a l).inner.stride ≤ u.inner.stride) ∧
      (selMinStride a l).inner.stride ≤ a.inner.stride := by
  induction l generalizing a with
  | nil => exact ⟨[], [], rfl, by simp, by simp, Nat.le_refl _⟩
  | cons t ts ih =>
    by_cases h : t.inner.stride < a.inner.stride
    · obtain ⟨l₁, l₂, heq, hbef, haft, hmin⟩ := ih t
      rw [show selMinStride a (t :: ts) = selMinStride t ts by simp [selMinStride, h]]
      refine ⟨a :: l₁, l₂, ?_, ?_, haft, Nat.le_of_lt (Nat.lt_of_le_of_lt hmin h)⟩
      · simpa using heq
      · intro u hu
        rcases List.mem_cons.mp hu with rfl | hu
        · exact Nat.lt_of_le_of_lt hmin h
        · exact hbef u hu
    · obtain ⟨l₁, l₂, heq, hbef, haft, hmin⟩ := ih a
      rw [show selMinStride a (t :: ts) = selMinStride a ts by simp [selMinStride, h]]
      cases l₁ with
      | nil =>
        simp only [List.nil_append] at heq
        injection heq with h1 h2
        subst h2
        refine ⟨[], t :: ts, ?_, by simp, ?_, hmin⟩
        · simp [← h1]
        · intro u hu
          rcases List.mem_cons.mp hu with rfl | hu
          · rw [← h1]; exact Nat.le_of_not_lt h
          · exact haft u hu
      | cons b l₁ =>
        simp only [List.cons_append] at heq
        injection heq with h1 h2
        subst h1
        have hlt_a : (selMinStride a ts).inner.stride < a.inner.stride :=
          hbef a (List.mem_cons_self _ _)
        refine ⟨a :: t :: l₁, l₂, ?_, ?_, haft, hmin⟩
        · simpa using h2
        · intro u hu
          rcases List.mem_cons.mp hu with rfl | hu
          · exact hlt_a
          · rcases List.mem_cons.mp hu with rfl | hu
            · exact Nat.lt_of_lt_of_le hlt_a (Nat.le_of_not_lt h)
            · exact hbef u (List.mem_cons_of_mem _ hu)

/-- Removing by pointer identity drops exactly the selected occurrence when no
earlier entry shares its id. -/
theorem removeFirstId_append (l₁ l₂ : List TaskRef) (m : TaskRef)
    (hne : ∀ u ∈ l₁, u.id ≠ m.id) :
    removeFirstId (l₁ ++ m :: l₂) m.id = l₁ ++ l₂ := by
  induction l₁ with
  | nil => simp [removeFirstId]
  | cons u l₁ ih =>
    have hu : u.id ≠ m.id := hne u (List.mem_cons_self _ _)
    simp only [List.cons_append, removeFirstId, if_neg hu, List.append_eq]
    rw [ih fun v hv => hne v (List.mem_cons_of_mem _ hv)]

/-- C6 (amended): on a non-empty ready queue of distinct tasks whose priorities
are valid isize values at least 2, fetch_min_stride_task selects the entry
with minimal stride (ties broken by queue order, first wins), removes exactly
that entry, and returns it with its stride advanced by BIG_STRIDE / priority
modulo 2^64.  The advance is strictly positive only under the additional
bounds priority <= BIG_STRIDE and no usize wrap-around; the original claim
that priority >= 2 alone forces a strict stride increase is false (see the
counterexample with priority BIG_STRIDE + 1, whose advance is 0). -/
theorem fetch_min_stride_spec (q : List TaskRef) (hq : q ≠ [])
    (hids : (q.map TaskRef.id).Nodup)
    (hprio : ∀ t ∈ q, 2 ≤ t.inner.priority ∧ t.inner.priority < 2 ^ 63) :
    ∃ l₁ m l₂,
      q = l₁ ++ m :: l₂ ∧
      (∀ u ∈ l₁, m.inner.stride < u.inner.stride) ∧
      (∀ u ∈ q, m.inner.stride ≤ u.inner.stride) ∧
      fetchMinStrideTask q = Except.ok
        ({ m with inner := { m.inner with
            stride := (m.inner.stride + BIG_STRIDE / usizeOfIsize m.inner.priority) % 2 ^ 64 } },
          l₁ ++ l₂) ∧
      (m.inner.priority ≤ (BIG_STRIDE : Int) →
        m.inner.stride + BIG_STRIDE / usizeOfIsize m.inner.priority < 2 ^ 64 →
        m.inner.stride <
          (m.inner.stride + BIG_STRIDE / usizeOfIsize m.inner.priority) % 2 ^ 64) := by
  cases q with
  | nil => exact absurd rfl hq
  | cons t ts =>
    obtain ⟨l₁, l₂, heq, hbef, haft, hmin⟩ := selMinStride_split ts t
    have hmem : selMinStride t ts ∈ t :: ts := by
      rw [heq]; exact List.mem_append_right _ (List.mem_cons_self _ _)
    have hp := hprio _ hmem
    have hmod : (selMinStride t ts).inner.priority % (2 ^ 64 : Int)
        = (selMinStride t ts).inner.priority :=
      Int.emod_eq_of_lt (le_trans (by norm_num) hp.1) (lt_trans hp.2 (by norm_num))
    have hd : usizeOfIsize (selMinStride t ts).inner.priority
        = (selMinStride t ts).inner.priority.toNat := by
      rw [usizeOfIsize, hmod]
    have hdne : usizeOfIsize (selMinStride t ts).inner.priority ≠ 0 := by
      rw [hd]; omega
    have hneid : ∀ u ∈ l₁, u.id ≠ (selMinStride t ts).id := by
      rw [heq, List.map_append, List.map_cons] at hids
      intro u hu hEq
      exact (List.nodup_append.mp hids).2.2 (List.mem_map_of_mem _ hu)
        (by rw [hEq]; exact List.mem_cons_self _ _)
    have hrem : removeFirstId (t :: ts) (selMinStride t ts).id = l₁ ++ l₂ := by
      rw [heq]; exact removeFirstId_append l₁ l₂ _ hneid
    refine ⟨l₁, selMinStride t ts, l₂, heq, hbef, ?_, ?_, ?_⟩
    · intro u hu
      rw [heq] at hu
      rcases List.mem_append.mp hu with hu | hu
      · exact Nat.le_of_lt (hbef u hu)
      · rcases List.mem_cons.mp hu with rfl | hu
        · exact Nat.le_refl _
        · exact haft u hu
    · simp only [fetchMinStrideTask, hrem, if_neg hdne]
    · intro hple hwrap
      have hble : (selMinStride t ts).inner.priority.toNat ≤ BIG_STRIDE := by omega
      have h1 : 1 ≤ BIG_STRIDE / usizeOfIsize (selMinStride t ts).inner.priority := by
        rw [hd]
        exact (Nat.one_le_div_iff (by omega)).mpr hble
      rw [Nat.mod_eq_of_lt hwrap]
      omega

/-- Counterexample for C6: a ready task with the valid priority 0x10000001
(greater than BIG_STRIDE) is selected, but its stride advance is
BIG_STRIDE / priority = 0, so the stride does not strictly increase even
though the priority is at least 2. -/
theorem fetch_min_stride_no_strict_increase_cex :
    (2 : Int) ≤ 0x10000001 ∧
    fetchMinStrideTask
        [TaskRef.mk 0 (TaskControlBlockInner.mk TaskStatus.Ready 0x10000001 7 0 0 0 0)] =
      Except.ok
        (TaskRef.mk 0 (TaskControlBlockInner.mk TaskStatus.Ready 0x10000001 7 0 0 0 0), []) :=
  ⟨by decide, rfl⟩

/-- Witness for C6 on a concrete three-task queue in which the minimal stride 3
is attained twice and the second entry (first with stride 3) is selected. -/
theorem fetch_min_stride_spec_witness :
    ∃ l₁ m l₂,
      ([TaskRef.mk 10 (TaskControlBlockInner.mk TaskStatus.Ready 2 5 0 0 0 0),
        TaskRef.mk 11 (TaskControlBlockInner.mk TaskStatus.Ready 4 3 0 0 0 0),
        TaskRef.mk 12 (TaskControlBlockInner.mk TaskStatus.Ready 2 3 0 0 0 0)]) =
        l₁ ++ m :: l₂ ∧
      (∀ u ∈ l₁, m.inner.stride < u.inner.stride) ∧
      (∀ u ∈ [TaskRef.mk 10 (TaskControlBlockInner.mk TaskStatus.Ready 2 5 0 0 0 0),
        TaskRef.mk 11 (TaskControlBlockInner.mk TaskStatus.Ready 4 3 0 0 0 0),
        TaskRef.mk 12 (TaskControlBlockInner.mk TaskStatus.Ready 2 3 0 0 0 0)],
        m.inner.stride ≤ u.inner.stride) ∧
      fetchMinStrideTask
          [TaskRef.mk 10 (TaskControlBlockInner.mk TaskStatus.Ready 2 5 0 0 0 0),
            TaskRef.mk 11 (TaskControlBlockInner.mk TaskStatus.Ready 4 3 0 0 0 0),
            TaskRef.mk 12 (TaskControlBlockInner.mk TaskStatus.Ready 2 3 0 0 0 0)] =
        Except.ok
          ({ m with inner := { m.inner with
              stride := (m.inner.stride + BIG_STRIDE / usizeOfIsize m.inner.priority) % 2 ^ 64 } },
            l₁ ++ l₂) ∧
      (m.inner.priority ≤ (BIG_STRIDE : Int) →
        m.inner.stride + BIG_STRIDE / usizeOfIsize m.inner.priority < 2 ^ 64 →
        m.inner.stride <
          (m.inner.stride + BIG_STRIDE / usizeOfIsize m.inner.priority) % 2 ^ 64) :=
  fetch_min_stride_spec _ (by decide) (by decide) (by decide)

/-! ## Page table (os/src/mm/page_table.rs)

Physical memory is modelled as an array of page-table entries per frame:
mem ppn idx is the usize read through PhysPageNum::get_pte_array.  Page-table
entries are bare usize bit patterns exactly as in the source. -/

/-- Physical memory seen as per-frame PTE arrays. -/
def Mem : Type := Nat → Nat → Nat

/-- PageTableEntry::new: ppn.0 << 10 | flags.bits. -/
def pteNew (ppn flags : Nat) : Nat := ppn <<< 10 ||| flags

/-- PageTableEntry::empty: zero bits. -/
def pteEmpty : Nat := 0

/-- PageTableEntry::ppn: bits >> 10 & ((1 << 44) - 1). -/
def ptePpn (bits : Nat) : Nat := (bits >>> 10) &&& ((1 <<< 44) - 1)

/-- PageTableEntry::flags: bits as u8. -/
def pteFlags (bits : Nat) : Nat := bits % 256

/-- PageTableEntry::is_valid: flags & V is non-empty (V = bit 0). -/
def pteIsValid (bits : Nat) : Bool := pteFlags bits &&& 1 != 0

/-- Modelled from the spec: VirtPageNum::indexes lives in the address module,
which is not among the provided sources; the spec says a virtual page number
decomposes into three fixed-width (9-bit) indices, most significant first. -/
def vpnIndexes (vpn : Nat) : Nat × Nat × Nat :=
  ((vpn >>> 18) &&& 511, (vpn >>> 9) &&& 511, vpn &&& 511)

/-- Level-0 (most significant) index of a virtual page number. -/
def idxL0 (vpn : Nat) : Nat := (vpnIndexes vpn).1

/-- Level-1 index of a virtual page number. -/
def idxL1 (vpn : Nat) : Nat := (vpnIndexes vpn).2.1

/-- Level-2 (leaf) index of a virtual page number. -/
def idxL2 (vpn : Nat) : Nat := (vpnIndexes vpn).2.2

/-- Store one page-table entry (the write through a mutable PTE reference). -/
def writePte (m : Mem) (p i v : Nat) : Mem :=
  fun q j => if q = p ∧ j = i then v else m q j

/-- Zero-fill a whole frame (the page cleaning in FrameTracker::new). -/
def zeroPage (m : Mem) (p : Nat) : Mem :=
  fun q j => if q = p then 0 else m q j

/-- Kernel state for page-table walks: physical memory plus the global frame
allocator. -/
structure MMState where
  mem : Mem
  fa : StackFrameAllocator

/-- frame_alloc: draw from the global StackFrameAllocator and zero-fill the
returned frame; none models the unwrap panic on exhaustion. -/
def frameAllocKernel (s : MMState) : Option (Nat × MMState) :=
  match s.fa.alloc with
  | (some p, fa2) => some (p, { mem := zeroPage s.mem p, fa := fa2 })
  | (none, _) => none

/-- PageTable::find_pte: three-level read-only walk.  It returns the location
(frame, index) of the leaf entry without checking the validity of the leaf
itself; it returns none as soon as an intermediate entry is invalid. -/
def findPte (m : Mem) (root vpn : Nat) : Option (Nat × Nat) :=
  let pte0 := m root (idxL0 vpn)
  if pteIsValid pte0 then
    let pte1 := m (ptePpn pte0) (idxL1 vpn)
    if pteIsValid pte1 then
      some (ptePpn pte1, idxL2 vpn)
    else
      none
  else
    none

/-- PageTable::translate: copy the leaf entry found by find_pte. -/
def PageTable.translate (m : Mem) (root vpn : Nat) : Option Nat :=
  (findPte m root vpn).map fun loc => m loc.1 loc.2

/-- PageTable::find_pte_create: same walk, but an invalid intermediate entry is
replaced by a freshly allocated zero-filled frame marked valid (flags = V).
It fails only if frame_alloc panics on exhaustion. -/
def findPteCreate (s : MMState) (root vpn : Nat) : Option ((Nat × Nat) × MMState) :=
  let step1 : Option (Nat × MMState) :=
    if pteIsValid (s.mem root (idxL0 vpn)) then
      some (ptePpn (s.mem root (idxL0 vpn)), s)
    else
      match frameAllocKernel s with
      | none => none
      | some (f, s1) => some (f, { s1 with mem := writePte s1.mem root (idxL0 vpn) (pteNew f 1) })
  match step1 with
  | none => none
  | some (l1, s1) =>
    if pteIsValid (s1.mem l1 (idxL1 vpn)) then
      some ((ptePpn (s1.mem l1 (idxL1 vpn)), idxL2 vpn), s1)
    else
      match frameAllocKernel s1 with
      | none => none
      | some (f, s2) => some ((f, idxL2 vpn), { s2 with mem := writePte s2.mem l1 (idxL1 vpn) (pteNew f 1) })

/-- PageTable::map: walk with creation, assert the leaf is not yet valid
(none models the panic), then install (ppn, flags | V). -/
def mapPage (s : MMState) (root vpn ppn flags : Nat) : Option MMState :=
  match findPteCreate s root vpn with
  | none => none
  | some (loc, s1) =>
    if pteIsValid (s1.mem loc.1 loc.2) then
      none
    else
      some { s1 with mem := writePte s1.mem loc.1 loc.2 (pteNew ppn (flags ||| 1)) }

/-- PageTable::unmap: find the leaf, assert it is valid (none models the
panic on an unmapped page), then clear it to the empty entry. -/
def unmapPage (m : Mem) (root vpn : Nat) : Option Mem :=
  match findPte m root vpn with
  | none => none
  | some loc =>
    if pteIsValid (m loc.1 loc.2) then
      some (writePte m loc.1 loc.2 pteEmpty)
    else
      none

/-- Frame holding the level-1 table on the walk for vpn (meaningful when the
level-0 entry is valid). -/
def l1Page (m : Mem) (root vpn : Nat) : Nat := ptePpn (m root (idxL0 vpn))

/-- Frame holding the leaf table on the walk for vpn (meaningful when the
first two entries are valid). -/
def l2Page (m : Mem) (root vpn : Nat) : Nat := ptePpn (m (l1Page m root vpn) (idxL1 vpn))

/-- Counterexample input for C4: a three-level table rooted at frame 0 mapping
vpn 0 through frames 1 and 2 to the leaf entry (ppn 3, flags VRW). -/
def memC4 : Mem := fun p i =>
  if p = 0 ∧ i = 0 then pteNew 1 1
  else if p = 1 ∧ i = 0 then pteNew 2 1
  else if p = 2 ∧ i = 0 then pteNew 3 7
  else 0

/-- Counterexample for C4: after a successful unmap of a mapped vpn, translate
does not return absent; it returns the copied leaf entry, which is the empty
(all-zero, invalid) entry. -/
theorem unmap_translate_not_absent_cex :
    (unmapPage memC4 0 0).map (fun m2 => PageTable.translate m2 0 0) = some (some pteEmpty) ∧
    some pteEmpty ≠ (none : Option Nat) := by
  exact ⟨rfl, by decide⟩

/-- C4 (amended): if unmap(vpn) succeeds (the leaf was valid), and the leaf
frame of the walk is distinct from the root frame and from the level-1 frame
(true of any real three-level table, whose frames come pairwise distinct from
the frame allocator), then translate(vpn) returns Some of the empty entry:
the leaf location still exists but its entry is zero, with the Valid bit
clear - not None as the claim states. -/
theorem unmap_then_translate (m m2 : Mem) (root vpn : Nat)
    (hun : unmapPage m root vpn = some m2)
    (h1 : l2Page m root vpn ≠ root)
    (h2 : l2Page m root vpn ≠ l1Page m root vpn) :
    PageTable.translate m2 root vpn = some pteEmpty := by
  simp only [l1Page, l2Page] at h1 h2
  by_cases hv0 : pteIsValid (m root (idxL0 vpn))
  · by_cases hv1 : pteIsValid (m (ptePpn (m root (idxL0 vpn))) (idxL1 vpn))
    · simp only [unmapPage, findPte, hv0, if_true, hv1] at hun
      by_cases hv2 : pteIsValid
          (m (ptePpn (m (ptePpn (m root (idxL0 vpn))) (idxL1 vpn))) (idxL2 vpn))
      · rw [if_pos hv2, Option.some.injEq] at hun
        subst hun
        have e0 : (writePte m (ptePpn (m (ptePpn (m root (idxL0 vpn))) (idxL1 vpn)))
            (idxL2 vpn) pteEmpty) root (idxL0 vpn) = m root (idxL0 vpn) := by
          simp only [writePte]
          rw [if_neg]
          rintro ⟨hq, -⟩
          exact h1 hq.symm
        have e1 : (writePte m (ptePpn (m (ptePpn (m root (idxL0 vpn))) (idxL1 vpn)))
            (idxL2 vpn) pteEmpty) (ptePpn (m root (idxL0 vpn))) (idxL1 vpn)
            = m (ptePpn (m root (idxL0 vpn))) (idxL1 vpn) := by
          simp only [writePte]
          rw [if_neg]
          rintro ⟨hq, -⟩
          exact h2 hq.symm
        have e2 : (writePte m (ptePpn (m (ptePpn (m root (idxL0 vpn))) (idxL1 vpn)))
            (idxL2 vpn) pteEmpty) (ptePpn (m (ptePpn (m root (idxL0 vpn))) (idxL1 vpn)))
            (idxL2 vpn) = pteEmpty := by
          simp [writePte]
        simp only [PageTable.translate, findPte, e0, hv0, if_true, e1, hv1, e2,
          Option.map_some']
      · rw [if_neg hv2] at hun
        cases hun
    · simp only [unmapPage, findPte, hv0, if_true, hv1, if_false] at hun
      cases hun
  · simp only [unmapPage, findPte, hv0, if_false] at hun
    cases hun

/-- Witness for C4 on the concrete table: the walk frames 0, 1, 2 are pairwise
distinct and translate after unmap yields the empty entry. -/
theorem unmap_then_translate_witness :
    PageTable.translate (writePte memC4 2 0 pteEmpty) 0 0 = some pteEmpty :=
  unmap_then_translate memC4 (writePte memC4 2 0 pteEmpty) 0 0 rfl (by decide) (by decide)

/-! ## Arithmetic facts about page-table entry encoding -/

theorem lor_shiftLeft_eq_add (p f k : Nat) (h : f < 2 ^ k) :
    p <<< k ||| f = p * 2 ^ k + f := by
  rw [Nat.mul_comm]
  apply Nat.eq_of_testBit_eq
  intro i
  rw [Nat.testBit_or, Nat.testBit_shiftLeft, Nat.testBit_mul_pow_two_add p h i]
  by_cases hik : i < k
  · have hk : ¬ k ≤ i := Nat.not_le.mpr hik
    simp [hk, hik]
  · have hk : k ≤ i := Nat.le_of_not_lt hik
    have hf : f.testBit i = false :=
      Nat.testBit_lt_two_pow (Nat.lt_of_lt_of_le h (Nat.pow_le_pow_right (by norm_num) hk))
    simp [hk, hik, hf]

theorem pteNew_eq (ppn fl : Nat) (h : fl < 1024) : pteNew ppn fl = ppn * 1024 + fl := by
  have h2 : fl < 2 ^ 10 := by rw [show (2:Nat) ^ 10 = 1024 from rfl]; exact h
  rw [pteNew, lor_shiftLeft_eq_add ppn fl 10 h2, show (2:Nat) ^ 10 = 1024 from rfl]

theorem ptePpn_pteNew (ppn fl : Nat) (hp : ppn < 2 ^ 44) (h : fl < 1024) :
    ptePpn (pteNew ppn fl) = ppn := by
  rw [pteNew_eq ppn fl h, ptePpn, Nat.shiftRight_eq_div_pow,
    show ((1 <<< 44 : Nat) - 1) = 2 ^ 44 - 1 from rfl,
    Nat.and_pow_two_sub_one_eq_mod]
  have hq : (ppn * 1024 + fl) / 2 ^ 10 = ppn := by
    rw [show (2:Nat) ^ 10 = 1024 from rfl]; omega
  rw [hq, Nat.mod_eq_of_lt hp]

theorem pteFlags_pteNew (ppn fl : Nat) (h : fl < 1024) :
    pteFlags (pteNew ppn fl) = fl % 256 := by
  rw [pteNew_eq ppn fl h, pteFlags]; omega

theorem pteIsValid_iff (x : Nat) : pteIsValid x = true ↔ x % 2 = 1 := by
  rw [pteIsValid, pteFlags, Nat.and_one_is_mod, bne_iff_ne]
  omega

theorem pteIsValid_pteNew_v (f : Nat) : pteIsValid (pteNew f 1) = true := by
  rw [pteIsValid_iff, pteNew_eq f 1 (by norm_num)]
  omega

theorem or_one_lt_1024 (fl : Nat) (h : fl < 256) : fl ||| 1 < 1024 := by
  have := Nat.or_lt_two_pow (n := 10) (x := fl) (y := 1) (by omega) (by norm_num)
  omega

theorem or_one_odd (fl : Nat) : (fl ||| 1) % 2 = 1 := by
  have h0 : (fl ||| 1).testBit 0 = true := by
    rw [Nat.testBit_or]
    simp
  rw [Nat.testBit_zero] at h0
  exact of_decide_eq_true h0

theorem pteIsValid_pteNew_leaf (ppn fl : Nat) (h : fl < 256) :
    pteIsValid (pteNew ppn (fl ||| 1)) = true := by
  rw [pteIsValid_iff, pteNew_eq ppn (fl ||| 1) (or_one_lt_1024 fl h)]
  have := or_one_odd fl
  omega

theorem writePte_ne_page {m : Mem} {p i v q j : Nat} (h : q ≠ p) :
    writePte m p i v q j = m q j := by
  simp [writePte, h]

theorem writePte_ne_idx {m : Mem} {p i v q j : Nat} (h : j ≠ i) :
    writePte m p i v q j = m q j := by
  simp [writePte, h]

theorem writePte_hit (m : Mem) (p i v : Nat) : writePte m p i v p i = v := by
  simp [writePte]

theorem zeroPage_ne {m : Mem} {p q j : Nat} (h : q ≠ p) : zeroPage m p q j = m q j := by
  simp [zeroPage, h]

theorem zeroPage_hit (m : Mem) (p j : Nat) : zeroPage m p p j = 0 := by
  simp [zeroPage]

theorem pteIsValid_zero : pteIsValid 0 = false := rfl

/-- C7: mapping an unmapped vpn and then translating it returns exactly the
installed entry: the supplied ppn and the supplied flags with the Valid bit
set.  Hypotheses express well-formedness that holds of every page table the
kernel builds: the allocator has frames left (empty recycled stack and at
least two frames before the end), every frame already in use (root and the
valid walk frames) lies below the allocation frontier and the walk frames are
pairwise distinct, frames fit in the 44-bit ppn field, the flag byte is a u8,
and the leaf entry for vpn is currently invalid. -/
theorem map_then_translate (s : MMState) (root vpn ppn fl : Nat)
    (hrec : s.fa.recycled = []) (hle : s.fa.current + 2 ≤ s.fa.endPpn)
    (hroot : root < s.fa.current)
    (hcur : s.fa.current + 2 ≤ 2 ^ 44)
    (hL1 : pteIsValid (s.mem root (idxL0 vpn)) = true →
      l1Page s.mem root vpn < s.fa.current ∧ l1Page s.mem root vpn ≠ root)
    (hL2 : pteIsValid (s.mem root (idxL0 vpn)) = true →
      pteIsValid (s.mem (l1Page s.mem root vpn) (idxL1 vpn)) = true →
      l2Page s.mem root vpn < s.fa.current ∧ l2Page s.mem root vpn ≠ root ∧
        l2Page s.mem root vpn ≠ l1Page s.mem root vpn)
    (hleaf : pteIsValid (s.mem root (idxL0 vpn)) = true →
      pteIsValid (s.mem (l1Page s.mem root vpn) (idxL1 vpn)) = true →
      pteIsValid (s.mem (l2Page s.mem root vpn) (idxL2 vpn)) = false)
    (hppn : ppn < 2 ^ 44) (hfl : fl < 256) :
    ∃ s2, mapPage s root vpn ppn fl = some s2 ∧
      PageTable.translate s2.mem root vpn = some (pteNew ppn (fl ||| 1)) ∧
      ptePpn (pteNew ppn (fl ||| 1)) = ppn ∧
      pteFlags (pteNew ppn (fl ||| 1)) = fl ||| 1 := by
  have hor1024 : fl ||| 1 < 1024 := or_one_lt_1024 fl hfl
  have hor256 : fl ||| 1 < 256 := Nat.or_lt_two_pow (n := 8) hfl (by norm_num)
  have hflags : pteFlags (pteNew ppn (fl ||| 1)) = fl ||| 1 := by
    rw [pteFlags_pteNew ppn _ hor1024, Nat.mod_eq_of_lt hor256]
  have hppnEq : ptePpn (pteNew ppn (fl ||| 1)) = ppn := ptePpn_pteNew ppn _ hppn hor1024
  obtain ⟨smem, ⟨cfa, efa, recfa⟩⟩ := s
  simp only [l1Page, l2Page] at hL1 hL2 hleaf
  simp only at hrec hle hroot hcur hL1 hL2 hleaf
  subst hrec
  have h44 : (2:Nat) ^ 44 = 17592186044416 := rfl
  rw [h44] at hcur
  have hcfne : ¬(cfa = efa) := by omega
  have hcfne1 : ¬(cfa + 1 = efa) := by omega
  cases hv0 : pteIsValid (smem root (idxL0 vpn)) with
  | true =>
    obtain ⟨hL1lt, hL1ne⟩ := hL1 hv0
    cases hv1 : pteIsValid (smem (ptePpn (smem root (idxL0 vpn))) (idxL1 vpn)) with
    | true =>
      obtain ⟨hL2lt, hL2ne_root, hL2ne_L1⟩ := hL2 hv0 hv1
      have hlf := hleaf hv0 hv1
      refine ⟨{ mem := writePte smem
                    (ptePpn (smem (ptePpn (smem root (idxL0 vpn))) (idxL1 vpn)))
                    (idxL2 vpn) (pteNew ppn (fl ||| 1)),
                fa := ⟨cfa, efa, []⟩ }, ?_, ?_, hppnEq, hflags⟩
      · simp [mapPage, findPteCreate, hv0, hv1, hlf]
      · have e0 : writePte smem (ptePpn (smem (ptePpn (smem root (idxL0 vpn))) (idxL1 vpn)))
            (idxL2 vpn) (pteNew ppn (fl ||| 1)) root (idxL0 vpn) = smem root (idxL0 vpn) :=
          writePte_ne_page (Ne.symm hL2ne_root)
        have e1 : writePte smem (ptePpn (smem (ptePpn (smem root (idxL0 vpn))) (idxL1 vpn)))
            (idxL2 vpn) (pteNew ppn (fl ||| 1)) (ptePpn (smem root (idxL0 vpn))) (idxL1 vpn)
            = smem (ptePpn (smem root (idxL0 vpn))) (idxL1 vpn) :=
          writePte_ne_page (Ne.symm hL2ne_L1)
        have e2 := writePte_hit smem
          (ptePpn (smem (ptePpn (smem root (idxL0 vpn))) (idxL1 vpn))) (idxL2 vpn)
          (pteNew ppn (fl ||| 1))
        simp [PageTable.translate, findPte, e0, hv0, e1, hv1, e2]
    | false =>
      have hL1necfa : ptePpn (smem root (idxL0 vpn)) ≠ cfa := by omega
      refine ⟨{ mem := writePte
                    (writePte (zeroPage smem cfa)
                      (ptePpn (smem root (idxL0 vpn))) (idxL1 vpn) (pteNew cfa 1))
                    cfa (idxL2 vpn) (pteNew ppn (fl ||| 1)),
                fa := ⟨cfa + 1, efa, []⟩ }, ?_, ?_, hppnEq, hflags⟩
      · have eB0 : writePte (zeroPage smem cfa) (ptePpn (smem root (idxL0 vpn))) (idxL1 vpn)
            (pteNew cfa 1) cfa (idxL2 vpn) = 0 := by
          rw [writePte_ne_page (Ne.symm hL1necfa), zeroPage_hit]
        simp [mapPage, findPteCreate, hv0, hv1, frameAllocKernel,
          StackFrameAllocator.alloc, hcfne, eB0, pteIsValid_zero]
      · have hrootcfa : root ≠ cfa := by omega
        have e0 : writePte (writePte (zeroPage smem cfa)
            (ptePpn (smem root (idxL0 vpn))) (idxL1 vpn) (pteNew cfa 1))
            cfa (idxL2 vpn) (pteNew ppn (fl ||| 1)) root (idxL0 vpn)
            = smem root (idxL0 vpn) := by
          rw [writePte_ne_page hrootcfa, writePte_ne_page (Ne.symm hL1ne),
            zeroPage_ne hrootcfa]
        have e1 : writePte (writePte (zeroPage smem cfa)
            (ptePpn (smem root (idxL0 vpn))) (idxL1 vpn) (pteNew cfa 1))
            cfa (idxL2 vpn) (pteNew ppn (fl ||| 1)) (ptePpn (smem root (idxL0 vpn))) (idxL1 vpn)
            = pteNew cfa 1 := by
          rw [writePte_ne_page hL1necfa, writePte_hit]
        have e2 := writePte_hit (writePte (zeroPage smem cfa)
          (ptePpn (smem root (idxL0 vpn))) (idxL1 vpn) (pteNew cfa 1))
          cfa (idxL2 vpn) (pteNew ppn (fl ||| 1))
        have hvc : pteIsValid (pteNew cfa 1) = true := pteIsValid_pteNew_v cfa
        have hpc : ptePpn (pteNew cfa 1) = cfa := by
          apply ptePpn_pteNew cfa 1 ?_ (by norm_num)
          rw [h44]; omega
        simp [PageTable.translate, findPte, e0, hv0, e1, hvc, hpc, e2]
  | false =>
    have hrootcfa : root ≠ cfa := by omega
    have hrootcfa1 : root ≠ cfa + 1 := by omega
    refine ⟨{ mem := writePte
                  (writePte
                    (zeroPage (writePte (zeroPage smem cfa) root (idxL0 vpn) (pteNew cfa 1))
                      (cfa + 1))
                    cfa (idxL1 vpn) (pteNew (cfa + 1) 1))
                  (cfa + 1) (idxL2 vpn) (pteNew ppn (fl ||| 1)),
              fa := ⟨cfa + 2, efa, []⟩ }, ?_, ?_, hppnEq, hflags⟩
    · have eC1 : writePte (zeroPage smem cfa) root (idxL0 vpn) (pteNew cfa 1) cfa (idxL1 vpn)
          = 0 := by
        rw [writePte_ne_page (Ne.symm hrootcfa), zeroPage_hit]
      have eC2 : writePte
          (zeroPage (writePte (zeroPage smem cfa) root (idxL0 vpn) (pteNew cfa 1)) (cfa + 1))
          cfa (idxL1 vpn) (pteNew (cfa + 1) 1) (cfa + 1) (idxL2 vpn) = 0 := by
        rw [writePte_ne_page (by omega : cfa + 1 ≠ cfa), zeroPage_hit]
      simp [mapPage, findPteCreate, hv0, frameAllocKernel, StackFrameAllocator.alloc,
        hcfne, hcfne1, eC1, eC2, pteIsValid_zero]
    · have e0 : writePte (writePte
          (zeroPage (writePte (zeroPage smem cfa) root (idxL0 vpn) (pteNew cfa 1)) (cfa + 1))
          cfa (idxL1 vpn) (pteNew (cfa + 1) 1))
          (cfa + 1) (idxL2 vpn) (pteNew ppn (fl ||| 1)) root (idxL0 vpn) = pteNew cfa 1 := by
        rw [writePte_ne_page hrootcfa1, writePte_ne_page hrootcfa, zeroPage_ne hrootcfa1,
          writePte_hit]
      have e1 : writePte (writePte
          (zeroPage (writePte (zeroPage smem cfa) root (idxL0 vpn) (pteNew cfa 1)) (cfa + 1))
          cfa (idxL1 vpn) (pteNew (cfa + 1) 1))
          (cfa + 1) (idxL2 vpn) (pteNew ppn (fl ||| 1)) cfa (idxL1 vpn) = pteNew (cfa + 1) 1 := by
        rw [writePte_ne_page (by omega : cfa ≠ cfa + 1), writePte_hit]
      have e2 := writePte_hit (writePte
        (zeroPage (writePte (zeroPage smem cfa) root (idxL0 vpn) (pteNew cfa 1)) (cfa + 1))
        cfa (idxL1 vpn) (pteNew (cfa + 1) 1))
        (cfa + 1) (idxL2 vpn) (pteNew ppn (fl ||| 1))
      have hvc0 : pteIsValid (pteNew cfa 1) = true := pteIsValid_pteNew_v cfa
      have hvc1 : pteIsValid (pteNew (cfa + 1) 1) = true := pteIsValid_pteNew_v (cfa + 1)
      have hpc0 : ptePpn (pteNew cfa 1) = cfa := by
        apply ptePpn_pteNew cfa 1 ?_ (by norm_num)
        rw [h44]; omega
      have hpc1 : ptePpn (pteNew (cfa + 1) 1) = cfa + 1 := by
        apply ptePpn_pteNew (cfa + 1) 1 ?_ (by norm_num)
        rw [h44]; omega
      simp [PageTable.translate, findPte, e0, hvc0, hpc0, e1, hvc1, hpc1, e2]

/-- Witness table for C7: root frame 0 with an existing level-0 entry to frame
1 and level-1 entry to frame 2, leaf entries empty. -/
def memC7 : Mem := fun p i =>
  if p = 0 ∧ i = 0 then pteNew 1 1
  else if p = 1 ∧ i = 0 then pteNew 2 1
  else 0

/-- Witness for C7: map vpn 0 to ppn 7 with flags RW (6) on the concrete
table, then translate it back. -/
theorem map_then_translate_witness :
    ∃ s2, mapPage { mem := memC7, fa := ⟨3, 10, []⟩ } 0 0 7 6 = some s2 ∧
      PageTable.translate s2.mem 0 0 = some (pteNew 7 (6 ||| 1)) ∧
      ptePpn (pteNew 7 (6 ||| 1)) = 7 ∧
      pteFlags (pteNew 7 (6 ||| 1)) = 6 ||| 1 :=
  map_then_translate { mem := memC7, fa := ⟨3, 10, []⟩ } 0 0 7 6 rfl (by decide) (by decide)
    (by decide) (by decide) (by decide) (by decide) (by decide) (by decide)

/-! ## Cross-address-space pointer translation (C5) -/

/-- PageTable::from_token: the low 44 bits of the satp token are the root
frame number. -/
def fromToken (satp : Nat) : Nat := satp &&& ((1 <<< 44) - 1)

/-- get_phyical_address (page_table.rs): translate only the page containing
ptr and rejoin the in-page offset (ppn << 12 | offset); none models the panic
when no entry exists.  VirtAddr::page_offset and floor come from the address
module, modelled from the spec (4 KiB pages). -/
def get_phyical_address (m : Mem) (token ptr : Nat) : Option Nat :=
  match PageTable.translate m (fromToken token) (ptr / 4096) with
  | some pte => some (ptePpn pte <<< 12 ||| ptr % 4096)
  | none => none

/-- The physical byte addresses sys_get_time actually writes: it calls
get_phyical_address once on the struct start and stores the 16-byte TimeVal
contiguously from that single physical address. -/
def sysGetTimeByteAddr (m : Mem) (token ts j : Nat) : Option Nat :=
  (get_phyical_address m token ts).map (fun pa => pa + j)

/-- Modelled from the spec: the address required for byte j of a syscall
result struct - translate that byte within the caller address space (a
split-aware write as performed through translated_byte_buffer). -/
def perByteAddr (m : Mem) (token ts j : Nat) : Option Nat :=
  get_phyical_address m token (ts + j)

/-- Concrete address space for C5: virtual pages 0x10 and 0x11 are mapped to
the non-adjacent physical frames 5 and 9. -/
def memC5 : Mem := fun p i =>
  if p = 0 ∧ i = 0 then pteNew 1 1
  else if p = 1 ∧ i = 0 then pteNew 2 1
  else if p = 2 ∧ i = 16 then pteNew 5 15
  else if p = 2 ∧ i = 17 then pteNew 9 15
  else 0

/-- C5 (code bug): a TimeVal at virtual address 0x10FF8 straddles the page
boundary (its 16 bytes span two pages), and for byte 8 the kernel writes to
physical address 24576 (frame 5 plus one page), not to 36864, the address of
that byte under its own translation (frame 9).  sys_get_time assumes the
struct is physically contiguous, against the spec and against the hint in its
own source comment. -/
theorem sys_get_time_straddle_divergence :
    (69624 : Nat) / 4096 ≠ (69624 + 15) / 4096 ∧
    sysGetTimeByteAddr memC5 (8 <<< 60) 69624 8 = some 24576 ∧
    perByteAddr memC5 (8 <<< 60) 69624 8 = some 36864 ∧
    (24576 : Nat) ≠ 36864 :=
  ⟨by decide, rfl, rfl, by decide⟩
